import Mathlib

/-!
Shallow embedding of `src/server.py` (Ticket Desk v4) and verification of its
specification claims.

Numbers: Python floats are modelled as exact rationals (ℚ); Python ints as
ℤ/ℕ. Because the library's `Rat.add`/`Rat.mul`/`Rat.inv` are irreducible (so
concrete witnesses could not be checked by `decide`), rational values are
built with the reducible primitive `Rat.divInt` through the helpers `qAdd`,
`qDivInt` and `intDivQ` below; the bridge lemmas `qAdd_eq`, `qDivInt_eq` and
`intDivQ_eq` prove these equal the ordinary field operations, so every
theorem is stated with ordinary `+`, `-`, `*`, `/`.

Python's `round` is round-half-to-even (`pyRound`, with the arithmetic
characterisation `pyRound_eq`); `round(x, 1)` is `roundTo1`. Dates
(`'%Y-%m-%d'` strings, compared lexicographically, which agrees with
chronological order) and timestamps are modelled as naturals. Python
truthiness on a number is `≠ 0`; on an optional value, `some` of a truthy
value.
-/

namespace TicketDesk

/-- Source line 35: `PRICE_MIN = 800` (200-level price sanity bounds). -/
def PRICE_MIN : ℚ := 800

/-- Source line 36: `PRICE_MAX = 12000`. -/
def PRICE_MAX : ℚ := 12000

/-- Exact rational addition, built from integer arithmetic so that it
kernel-reduces; `qAdd_eq` identifies it with `+`. -/
def qAdd (a b : ℚ) : ℚ := Rat.divInt (a.num * b.den + b.num * a.den) (a.den * b.den)

/-- Exact division of a rational by an integer; `qDivInt_eq` identifies it
with `/`. -/
def qDivInt (a : ℚ) (n : ℤ) : ℚ := Rat.divInt a.num (a.den * n)

/-- The rational `a / b` for integers `a`, `b`; `intDivQ_eq` identifies it
with cast-then-divide. -/
def intDivQ (a b : ℤ) : ℚ := Rat.divInt a b

/-- Python's builtin `round` to an integer (round half to even), phrased with
integer arithmetic only; see `pyRound_eq` for the usual characterisation. -/
def pyRound (q : ℚ) : ℤ :=
  if 2 * (q.num - q.floor * (q.den : ℤ)) < (q.den : ℤ) then q.floor
  else if (q.den : ℤ) < 2 * (q.num - q.floor * (q.den : ℤ)) then q.floor + 1
  else if q.floor % 2 = 0 then q.floor else q.floor + 1

/-- Python's `round(x, 1)`: round to one decimal digit, half to even. -/
def roundTo1 (q : ℚ) : ℚ := Rat.divInt (pyRound (Rat.divInt (10 * q.num) (q.den : ℤ))) 10

/-- Python's `int()` applied to a float: truncation toward zero. -/
def truncQ (q : ℚ) : ℤ := Int.tdiv q.num (q.den : ℤ)

/-- Source lines 113-119, `pstats(prices)`: on an empty list return the
sentinel `(None, None, 0)`; otherwise let `s = sorted(set(prices))`,
`n = len(s)`, median `s[n//2]` for odd `n` and the average of `s[n//2-1]`
and `s[n//2]` for even `n`, returning `(round(s[0]), round(med), n)`. -/
def pstats (prices : List ℚ) : Option ℤ × Option ℤ × ℕ :=
  if prices = [] then (none, none, 0)
  else
    let s := List.insertionSort (· ≤ ·) prices.dedup
    let n := s.length
    let med : ℚ :=
      if n % 2 = 1 then s.getD (n / 2) 0
      else qDivInt (qAdd (s.getD (n / 2 - 1) 0) (s.getD (n / 2) 0)) 2
    (some (pyRound (s.getD 0 0)), some (pyRound med), n)

/-- A per-platform summary, the value built by `ok(f, m, c)` (source lines
121-123) and by the relay readers: `{'floor': f, 'median': m,
'total_count': c}`. -/
structure PlatformResult where
  floor : ℤ
  median : ℤ
  total_count : ℤ
deriving DecidableEq

/-- Python truthiness of an optional integer (`None` and `0` are falsy). -/
def truthyOptInt : Option ℤ → Bool
  | none => false
  | some n => n != 0

/-- Python truthiness of an optional rational. -/
def truthyOptQ : Option ℚ → Bool
  | none => false
  | some v => v != 0

/-- Python `min` of a nonempty integer list (all call sites guard against
the empty list, where Python would raise; `0` is a dead default). -/
def listMin : List ℤ → ℤ
  | [] => 0
  | x :: xs => xs.foldl min x

/-- Python `max` of a nonempty integer list. -/
def listMax : List ℤ → ℤ
  | [] => 0
  | x :: xs => xs.foldl max x

/-- The filter of the `medians` comprehension in `cross_stats` (source line
226): `p['median'] for p in platforms.values() if p and p.get('median')`. -/
def truthyMedian (p : Option PlatformResult) : Option ℤ :=
  match p with
  | some r => if r.median ≠ 0 then some r.median else none
  | none => none

/-- The filter of the `floors` comprehension in `cross_stats` (source line
227). -/
def truthyFloor (p : Option PlatformResult) : Option ℤ :=
  match p with
  | some r => if r.floor ≠ 0 then some r.floor else none
  | none => none

/-- Source lines 225-230, `cross_stats(platforms)`: collect the truthy
medians and floors of the truthy platform values, return `(None, None)` when
no medians, else the rounded mean of the medians and the rounded minimum of
the floors (`None` when no floors). -/
def cross_stats (platforms : List (Option PlatformResult)) : Option ℤ × Option ℤ :=
  let medians := platforms.filterMap truthyMedian
  let floors := platforms.filterMap truthyFloor
  if medians = [] then (none, none)
  else (some (pyRound (intDivQ medians.sum (medians.length : ℤ))),
        if floors = [] then none else some (pyRound ((listMin floors : ℤ) : ℚ)))

/-- One persisted day, the `today` dict of source lines 297-304. -/
structure DailyRecord where
  date : ℕ
  timestamp : ℕ
  cross_median : Option ℤ
  cross_floor : Option ℤ
  total_inventory : ℤ
  aisle_count : ℕ
  platform_spread_pct : ℚ
  source : String
  platforms : List (String × PlatformResult)
deriving DecidableEq

/-- The comparison key of `history.sort(key=lambda x: x['date'])`. -/
def byDate (a b : DailyRecord) : Bool := decide (a.date ≤ b.date)

/-- Source lines 240-242 of `save_data`: drop records carrying today's
date, append today, sort ascending by date (Python's stable sort, modelled
by `List.mergeSort`). -/
def upsert (history : List DailyRecord) (today : DailyRecord) : List DailyRecord :=
  List.mergeSort ((history.filter (fun h => h.date != today.date)) ++ [today]) byDate

/-- The `trends` object of source lines 255-261. -/
structure Trends where
  median_7d_slope : ℚ
  floor_7d_accel : ℚ
  inventory_wow_pct : Option ℚ
  prior_inventory : Option ℤ
  medians_7d : List ℤ
  floors_7d : List ℤ
  inventory_7d : List ℤ
deriving DecidableEq

/-- Python truthiness filter used by the `medians`/`floors`/`invs`
comprehensions of `save_data` (`if h.get('cross_median')` etc.). -/
def optTruthyInt (o : Option ℤ) : Option ℤ :=
  match o with
  | some n => if n ≠ 0 then some n else none
  | none => none

/-- Source lines 243-260: the trend block of `save_data`, as a function of
the (already upserted) history. `medians`, `floors` and `invs` list the
truthy fields in history order; the slope/accel/wow formulas use the last
two entries of each. -/
def computeTrends (history : List DailyRecord) : Trends :=
  let medians := history.filterMap (fun h => optTruthyInt h.cross_median)
  let floors := history.filterMap (fun h => optTruthyInt h.cross_floor)
  let invs := history.filterMap (fun h =>
    if h.total_inventory ≠ 0 then some h.total_inventory else none)
  let prior : Option ℤ :=
    if 2 ≤ invs.length then some (invs.getD (invs.length - 2) 0) else none
  { median_7d_slope :=
      if 2 ≤ medians.length then
        roundTo1 (intDivQ (medians.getD (medians.length - 1) 0 -
          medians.getD (medians.length - 2) 0) 7)
      else 0
    floor_7d_accel :=
      if 2 ≤ floors.length then
        roundTo1 ((floors.getD (floors.length - 1) 0 -
          floors.getD (floors.length - 2) 0 : ℤ) : ℚ)
      else 0
    inventory_wow_pct :=
      match prior with
      | some p =>
        if p ≠ 0 then
          some (roundTo1 (intDivQ ((invs.getD (invs.length - 1) 0 - p) * 100) p))
        else none
      | none => none
    prior_inventory := prior
    medians_7d := medians.drop (medians.length - 7)
    floors_7d := floors.drop (floors.length - 7)
    inventory_7d := invs.drop (invs.length - 7) }

/-- A concrete `DailyRecord` builder for concrete test instances. -/
def sampleRec (d : ℕ) (cm cf : Option ℤ) (inv : ℤ) : DailyRecord :=
  { date := d, timestamp := 0, cross_median := cm, cross_floor := cf,
    total_inventory := inv, aisle_count := 2, platform_spread_pct := 0,
    source := "scraper", platforms := [] }

/-- The persisted `ticket_data.json` document (source lines 247-263; the
constant `meta` strings are elided, `generated` is kept). -/
structure HistoryDoc where
  meta_generated : ℕ
  today : DailyRecord
  trends : Trends
  history : List DailyRecord
deriving DecidableEq

/-- Source lines 232-237, `load_history()`: the `history` array of the data
file, `[]` when the file is absent or unreadable. -/
def load_history (file : Option HistoryDoc) : List DailyRecord :=
  match file with
  | some doc => doc.history
  | none => []

/-- Source lines 239-265, `save_data(today)` as a pure function from the
previously persisted history and today's record to the document written. -/
def save_data (prev : List DailyRecord) (today : DailyRecord) (gen : ℕ) : HistoryDoc :=
  let history := upsert prev today
  { meta_generated := gen, today := today, trends := computeTrends history,
    history := history }

/-- A concrete persisted document for concrete test instances. -/
def sampleDoc : HistoryDoc :=
  { meta_generated := 0, today := sampleRec 1 (some 1000) (some 900) 10,
    trends := computeTrends [sampleRec 1 (some 1000) (some 900) 10],
    history := [sampleRec 1 (some 1000) (some 900) 10] }

/-- Source line 25: the module-level `state` dict. -/
structure ScrapeState where
  running : Bool
  last_success : Option ℕ
  last_error : Option String
  started_at : Option ℕ
deriving DecidableEq

/-- The initial `state` value of source line 25. -/
def initState : ScrapeState :=
  { running := false, last_success := none, last_error := none, started_at := none }

/-- Source lines 276-305: the body of `run_scrape`'s `try` block, from the
collected per-platform outcomes (`None` for a scraper that returned no data
or raised). Raising on an empty active set is the `Except.error`. -/
def scrapeCycle (platforms : List (String × Option PlatformResult))
    (prevFile : Option HistoryDoc) (today ts : ℕ) :
    Except String (HistoryDoc × DailyRecord) :=
  let active := platforms.filter (fun kv => kv.2.isSome)
  if active = [] then Except.error "All platforms returned no data."
  else
    let results := active.filterMap (fun kv => kv.2)
    let cs := cross_stats (results.map some)
    let total_inv := (results.map (fun r => r.total_count)).sum
    let meds := results.map (fun r => r.median)
    let spread :=
      if 2 ≤ meds.length ∧ truthyOptInt cs.1 then
        roundTo1 (intDivQ ((listMax meds - listMin meds) * 100) (cs.1.getD 0))
      else 0
    let todayRec : DailyRecord :=
      { date := today, timestamp := ts,
        cross_median := cs.1, cross_floor := cs.2,
        total_inventory := total_inv, aisle_count := 2,
        platform_spread_pct := spread, source := "scraper",
        platforms := active.filterMap (fun kv => kv.2.map (fun r => (kv.1, r))) }
    Except.ok (save_data (load_history prevFile) todayRec ts, todayRec)

/-- Source lines 272-313: the `state.update(...)` prologue, the
`try`/`except`/`finally` of `run_scrape`, abstracted over the outcome of the
body so that an arbitrary raised exception is covered. The `finally` clause
is the unconditional `running := false`. -/
def runScrapeWith (outcome : Except String (HistoryDoc × DailyRecord))
    (st : ScrapeState) (prevFile : Option HistoryDoc) (ts : ℕ) :
    ScrapeState × Option HistoryDoc × Option DailyRecord :=
  let st1 : ScrapeState :=
    { running := true, started_at := some ts, last_error := none,
      last_success := st.last_success }
  match outcome with
  | Except.ok (doc, rec) =>
    ({ st1 with running := false, last_success := some ts }, some doc, some rec)
  | Except.error e =>
    ({ st1 with running := false, last_error := some e }, prevFile, none)

/-- Source lines 272-313, `run_scrape()`: new scrape state, new data file
content, and the `DailyRecord` produced (if any). -/
def run_scrape (st : ScrapeState) (platforms : List (String × Option PlatformResult))
    (prevFile : Option HistoryDoc) (today ts : ℕ) :
    ScrapeState × Option HistoryDoc × Option DailyRecord :=
  runScrapeWith (scrapeCycle platforms prevFile today ts) st prevFile ts

/-- A stored relay-cache entry (source lines 387-393). -/
structure RelayEntry where
  floor : ℤ
  median : ℤ
  count : ℤ
  date : ℕ
  timestamp : ℕ
deriving DecidableEq

/-- The `relay_data.json` mapping `platformName → RelayEntry`, as an
insertion-ordered association list (Python dict). -/
abbrev RelayStore := List (String × RelayEntry)

/-- Python `relay.get(k)`. -/
def storeGet (s : RelayStore) (k : String) : Option RelayEntry :=
  match s.find? (fun kv => kv.1 == k) with
  | some kv => some kv.2
  | none => none

/-- Python `relay[k] = e`: replace in place or append. -/
def storeSet : RelayStore → String → RelayEntry → RelayStore
  | [], k, e => [(k, e)]
  | kv :: rest, k, e => if kv.1 = k then (k, e) :: rest else kv :: storeSet rest k e

/-- The parsed JSON body of a `/relay` POST (fields beyond the token). -/
structure RelayBody where
  platform : Option String
  floor : Option ℚ
  median : Option ℚ
  count : Option ℚ
deriving DecidableEq

/-- The JSON response of the `/relay` handler. -/
inductive RelayResp where
  | saved (platform : String) (floor median : ℚ)
  | badRequest (msg : String)
deriving DecidableEq

/-- Python `str.lower()` (ASCII, which covers every platform name here). -/
def pyLower (s : String) : String := String.mk (s.data.map Char.toLower)

/-- The whitespace class of Python's `str.strip()` and of `\s`. -/
def pySpace (c : Char) : Bool :=
  c == ' ' || c == '\t' || c == '\n' || c == '\r' || c == '\x0b' || c == '\x0c'

/-- Python `str.strip()` on a character list. -/
def pyStripChars (cs : List Char) : List Char :=
  ((cs.dropWhile pySpace).reverse.dropWhile pySpace).reverse

/-- Python `str.strip()`. -/
def pyStrip (s : String) : String := String.mk (pyStripChars s.data)

/-- Source lines 366-399: the `/relay` POST handler after body parsing and
the token check, as a pure function of the body, the stored relay data, the
scrape state and the current UTC date/timestamp. Note the module `state` is
never touched on this path; it is threaded through to make that checkable. -/
def relayHandler (body : RelayBody) (relay : RelayStore) (st : ScrapeState)
    (today ts : ℕ) : RelayResp × RelayStore × ScrapeState :=
  let platform := pyStrip (pyLower (body.platform.getD ""))
  let count := body.count.getD 10
  if platform = "" ∨ ¬ truthyOptQ body.floor ∨ ¬ truthyOptQ body.median then
    (RelayResp.badRequest "required: platform, floor, median", relay, st)
  else
    let f := (body.floor).getD 0
    let m := (body.median).getD 0
    if ¬ (PRICE_MIN ≤ f ∧ f ≤ PRICE_MAX ∧ PRICE_MIN ≤ m ∧ m ≤ PRICE_MAX) then
      (RelayResp.badRequest "prices must be between PRICE_MIN and PRICE_MAX", relay, st)
    else
      (RelayResp.saved platform f m,
       storeSet relay platform
         { floor := truncQ f, median := truncQ m, count := truncQ count,
           date := today, timestamp := ts },
       st)

/-- Source lines 154-171, `scrape_seatgeek()` (and identically
`scrape_tickpick`, `scrape_vividseats`): read the relay file (`none` when
absent), look up the platform, and use the entry only when its `date` equals
the current UTC date and floor and median are truthy. -/
def scrapeRelay (relayFile : Option RelayStore) (name : String) (today : ℕ) :
    Option PlatformResult :=
  match relayFile with
  | none => none
  | some relay =>
    match storeGet relay name with
    | none => none
    | some e =>
      if e.date = today then
        if e.floor ≠ 0 ∧ e.median ≠ 0 then
          some { floor := e.floor, median := e.median, total_count := e.count }
        else none
      else none

/-- Source lines 143-147, the tail of `scrape_stubhub()`: run `pstats` over
the extracted prices and return a `PlatformResult` when the floor is truthy. -/
def directResult (prices : List ℚ) : Option PlatformResult :=
  let r := pstats prices
  if r.1.getD 0 ≠ 0 then
    some { floor := r.1.getD 0, median := r.2.1.getD 0, total_count := (r.2.2 : ℤ) }
  else none

/-- The specification's description of one aggregation cycle over a
non-empty active set: the produced `DailyRecord` carries the rounded mean of
the medians, the rounded minimum of the floors (witnessed as a member that
bounds the rest), the summed sample counts, and the spread formula
`(max(medians) − min(medians)) / crossMedian × 100` to one decimal when at
least two platforms are active, `0` otherwise. -/
def AggregatorSpec (platforms : List (String × PlatformResult))
    (prevFile : Option HistoryDoc) (today ts : ℕ) : Prop :=
  ∃ doc rec,
    scrapeCycle (platforms.map (fun kv => (kv.1, some kv.2))) prevFile today ts =
      Except.ok (doc, rec) ∧
    rec.cross_median =
      some (pyRound ((((platforms.map (fun kv => kv.2.median)).sum : ℤ) : ℚ) /
        (platforms.length : ℚ))) ∧
    (listMin (platforms.map (fun kv => kv.2.floor)) ∈ platforms.map (fun kv => kv.2.floor) ∧
      ∀ g ∈ platforms.map (fun kv => kv.2.floor),
        listMin (platforms.map (fun kv => kv.2.floor)) ≤ g) ∧
    rec.cross_floor = some (pyRound ((listMin (platforms.map (fun kv => kv.2.floor)) : ℤ) : ℚ)) ∧
    rec.total_inventory = (platforms.map (fun kv => kv.2.total_count)).sum ∧
    (listMax (platforms.map (fun kv => kv.2.median)) ∈ platforms.map (fun kv => kv.2.median) ∧
      ∀ g ∈ platforms.map (fun kv => kv.2.median),
        g ≤ listMax (platforms.map (fun kv => kv.2.median))) ∧
    (2 ≤ platforms.length →
      rec.platform_spread_pct =
        roundTo1 ((((listMax (platforms.map (fun kv => kv.2.median)) : ℤ) : ℚ) -
          ((listMin (platforms.map (fun kv => kv.2.median)) : ℤ) : ℚ)) /
          ((rec.cross_median.getD 0 : ℤ) : ℚ) * 100)) ∧
    (platforms.length < 2 → rec.platform_spread_pct = 0)

/-- A JSON-like value tree, the input of `pluck`. -/
inductive Json where
  | null : Json
  | bool (b : Bool) : Json
  | num (q : ℚ) : Json
  | str (s : String) : Json
  | arr (items : List Json) : Json
  | obj (kvs : List (String × Json)) : Json

/-- Source lines 81-82: the case-insensitive price-key set. -/
def PRICE_KEYS : List String :=
  ["price", "listingprice", "amount", "cost", "ticketprice",
   "currentprice", "sellingprice", "rawprice", "baseprice", "priceperticket"]

/-- Numeric value of a digit string (most significant first). -/
def digitsVal (cs : List Char) : ℕ := cs.foldl (fun a c => 10 * a + (c.toNat - 48)) 0

/-- Python `float()` on a plain decimal literal: optional sign, digits,
optional single dot, at least one digit somewhere. (Exponent, `inf` and
`nan` forms, which never match price text, are rejected here.) -/
def parseFloatChars (cs : List Char) : Option ℚ :=
  let signed :=
    match cs with
    | '-' :: r => (true, r)
    | '+' :: r => (false, r)
    | r => (false, r)
  let cs1 := signed.2
  let sgn : ℤ := if signed.1 then -1 else 1
  let intPart := cs1.takeWhile Char.isDigit
  let rest := cs1.dropWhile Char.isDigit
  match rest with
  | [] =>
    if intPart = [] then none
    else some (Rat.divInt (sgn * (digitsVal intPart : ℤ)) 1)
  | '.' :: fracRest =>
    let fracPart := fracRest.takeWhile Char.isDigit
    if fracRest.dropWhile Char.isDigit ≠ [] then none
    else if intPart = [] ∧ fracPart = [] then none
    else some (Rat.divInt
      (sgn * ((digitsVal intPart : ℤ) * (10 : ℤ) ^ fracPart.length + (digitsVal fracPart : ℤ)))
      ((10 : ℤ) ^ fracPart.length))
  | _ => none

/-- Source line 91: `float(str(v).replace(',','').replace('$','').strip())`.
`str()` of a number round-trips through `float`; a string has its commas and
dollar signs removed and is stripped; `str()` of `None`, booleans, lists and
dicts never parses as a float, so those coerce to `none` (the caught
`ValueError`/`TypeError`). -/
def coerceNum : Json → Option ℚ
  | Json.num q => some q
  | Json.str s =>
    parseFloatChars (pyStripChars (s.data.filter (fun c => c != ',' && c != '$')))
  | _ => none

mutual

/-- Source lines 84-100, `pluck(obj, found)`: walk the value tree; under a
dict key whose lowercasing is in `PRICE_KEYS`, coerce the value and append
it to `found` when within `[PRICE_MIN, PRICE_MAX]`; recurse into every dict
value and list item. `found` is the mutated accumulator list. -/
def pluck : Json → List ℚ → List ℚ
  | Json.obj kvs, found => pluckKvs kvs found
  | Json.arr items, found => pluckArr items found
  | _, found => found

/-- The dict loop of `pluck` (source lines 88-96). -/
def pluckKvs : List (String × Json) → List ℚ → List ℚ
  | [], found => found
  | (k, v) :: rest, found =>
    let found1 :=
      if pyLower k ∈ PRICE_KEYS then
        match coerceNum v with
        | some p => if PRICE_MIN ≤ p ∧ p ≤ PRICE_MAX then found ++ [p] else found
        | none => found
      else found
    pluckKvs rest (pluck v found1)

/-- The list loop of `pluck` (source lines 97-99). -/
def pluckArr : List Json → List ℚ → List ℚ
  | [], found => found
  | item :: rest, found => pluckArr rest (pluck item found)

end

mutual

/-- Accumulator-free form of `pluck`: exactly the in-bounds coerced values
sitting under a price key, in traversal order. -/
def collect : Json → List ℚ
  | Json.obj kvs => collectKvs kvs
  | Json.arr items => collectArr items
  | _ => []

/-- Accumulator-free form of `pluckKvs`. -/
def collectKvs : List (String × Json) → List ℚ
  | [] => []
  | (k, v) :: rest =>
    (if pyLower k ∈ PRICE_KEYS then
      match coerceNum v with
      | some p => if PRICE_MIN ≤ p ∧ p ≤ PRICE_MAX then [p] else []
      | none => []
    else []) ++ collect v ++ collectKvs rest

/-- Accumulator-free form of `pluckArr`. -/
def collectArr : List Json → List ℚ
  | [] => []
  | item :: rest => collect item ++ collectArr rest

end

/-- The optional `(?:\.\d{1,2})?` tail of the money regex (source line 104):
greedily take a dot followed by one or two digits, else consume nothing. -/
def scanFrac : List Char → List Char × List Char
  | '.' :: c1 :: c2 :: rest =>
    if c1.isDigit then
      if c2.isDigit then (['.', c1, c2], rest)
      else (['.', c1], c2 :: rest)
    else ([], '.' :: c1 :: c2 :: rest)
  | '.' :: c1 :: rest =>
    if c1.isDigit then (['.', c1], rest)
    else ([], '.' :: c1 :: rest)
  | rest => ([], rest)

/-- Source lines 102-111, `regex_p(text)`: scan for
`\$\s*([\d,]+(?:\.\d{1,2})?)` (non-overlapping, left to right, as
`re.finditer`), parse each match group with its commas removed, and keep the
values within `[PRICE_MIN, PRICE_MAX]`. `fuel` bounds the recursion and is
instantiated with the text length, which the scanner never exceeds. -/
def scanPrices : ℕ → List Char → List ℚ
  | 0, _ => []
  | _ + 1, [] => []
  | fuel + 1, c :: rest =>
    if c = '$' then
      let afterWs := rest.dropWhile pySpace
      let tok := afterWs.takeWhile (fun d => d.isDigit || d == ',')
      let rest2 := afterWs.dropWhile (fun d => d.isDigit || d == ',')
      if tok = [] then scanPrices fuel rest
      else
        let fr := scanFrac rest2
        let tail := scanPrices fuel fr.2
        match parseFloatChars ((tok ++ fr.1).filter (fun d => d != ',')) with
        | some v => if PRICE_MIN ≤ v ∧ v ≤ PRICE_MAX then v :: tail else tail
        | none => tail
    else scanPrices fuel rest

/-- Source lines 102-111, `regex_p(text)`. -/
def regex_p (text : String) : List ℚ := scanPrices text.data.length text.data

/-- Source lines 134-143 in `scrape_stubhub`: every structured blob found in
the page is plucked into one accumulated price list, and the regex pass runs
exactly when that list ends up empty. -/
def extractPrices (blobs : List Json) (page : String) : List ℚ :=
  let prices := blobs.foldl (fun acc b => pluck b acc) []
  if prices = [] then regex_p page else prices

theorem num_eq_mul_den (a : ℚ) : (a.num : ℚ) = a * (a.den : ℚ) := by
  have hden : ((a.den : ℚ)) ≠ 0 := by positivity
  exact (div_eq_iff hden).mp (Rat.num_div_den a)

theorem qAdd_eq (a b : ℚ) : qAdd a b = a + b := by
  rw [qAdd, Rat.divInt_eq_div]
  push_cast
  rw [div_eq_iff (by positivity)]
  rw [num_eq_mul_den a, num_eq_mul_den b]
  ring

theorem qDivInt_eq (a : ℚ) (n : ℤ) : qDivInt a n = a / n := by
  have hda : ((a.den : ℚ)) ≠ 0 := by positivity
  rw [qDivInt, Rat.divInt_eq_div]
  push_cast
  rw [num_eq_mul_den, mul_comm a ((a.den : ℚ)), mul_div_mul_left _ _ hda]

theorem intDivQ_eq (a b : ℤ) : intDivQ a b = (a : ℚ) / b := by
  rw [intDivQ, Rat.divInt_eq_div]


/-- `pyRound q` is `⌊q⌋` when the fractional part is below `1/2`, `⌊q⌋ + 1`
when above, and the even neighbour on an exact half. -/
theorem pyRound_eq (q : ℚ) :
    pyRound q =
      if q - ⌊q⌋ < 1/2 then ⌊q⌋
      else if 1/2 < q - ⌊q⌋ then ⌊q⌋ + 1
      else if ⌊q⌋ % 2 = 0 then ⌊q⌋ else ⌊q⌋ + 1 := by
  have hflr : q.floor = ⌊q⌋ := rfl
  have hdQ : (0 : ℚ) < (q.den : ℚ) := by positivity
  have hexp : ((2 * (q.num - ⌊q⌋ * (q.den : ℤ)) : ℤ) : ℚ) =
      2 * (q - (⌊q⌋ : ℚ)) * (q.den : ℚ) := by
    push_cast
    rw [num_eq_mul_den]
    ring
  have hlt1 : (2 * (q.num - ⌊q⌋ * (q.den : ℤ)) < (q.den : ℤ)) ↔ (q - (⌊q⌋ : ℚ) < 1/2) := by
    constructor
    · intro h
      have h' : ((2 * (q.num - ⌊q⌋ * (q.den : ℤ)) : ℤ) : ℚ) < ((q.den : ℤ) : ℚ) := by
        exact_mod_cast h
      rw [hexp] at h'
      push_cast at h'
      nlinarith
    · intro h
      have h' : ((2 * (q.num - ⌊q⌋ * (q.den : ℤ)) : ℤ) : ℚ) < ((q.den : ℤ) : ℚ) := by
        rw [hexp]
        push_cast
        nlinarith
      exact_mod_cast h'
  have hlt2 : ((q.den : ℤ) < 2 * (q.num - ⌊q⌋ * (q.den : ℤ))) ↔ ((1 : ℚ)/2 < q - (⌊q⌋ : ℚ)) := by
    constructor
    · intro h
      have h' : ((q.den : ℤ) : ℚ) < ((2 * (q.num - ⌊q⌋ * (q.den : ℤ)) : ℤ) : ℚ) := by
        exact_mod_cast h
      rw [hexp] at h'
      push_cast at h'
      nlinarith
    · intro h
      have h' : ((q.den : ℤ) : ℚ) < ((2 * (q.num - ⌊q⌋ * (q.den : ℤ)) : ℤ) : ℚ) := by
        rw [hexp]
        push_cast
        nlinarith
      exact_mod_cast h'
  unfold pyRound
  rw [hflr]
  simp only [hlt1, hlt2]

/-- `pyRound` lands on the floor or the ceiling of its argument. -/
theorem pyRound_bounds (q : ℚ) : ⌊q⌋ ≤ pyRound q ∧ pyRound q ≤ ⌊q⌋ + 1 := by
  rw [pyRound_eq]
  split_ifs <;> omega

/-- Python's `round` is monotone. -/
theorem pyRound_mono {q q' : ℚ} (h : q ≤ q') : pyRound q ≤ pyRound q' := by
  have hfloor : ⌊q⌋ ≤ ⌊q'⌋ := Int.floor_mono h
  have hb1 := pyRound_bounds q
  have hb2 := pyRound_bounds q'
  rcases lt_or_eq_of_le hfloor with hlt | heq
  · omega
  · have hr : q - (⌊q⌋ : ℚ) ≤ q' - (⌊q'⌋ : ℚ) := by
      rw [← heq]
      linarith
    rw [pyRound_eq, pyRound_eq, ← heq]
    rw [← heq] at hr
    split_ifs <;> first | omega | linarith

/-- Rounding an integer is the identity. -/
theorem pyRound_intCast (n : ℤ) : pyRound (n : ℚ) = n := by
  rw [pyRound_eq, Int.floor_intCast]
  rw [if_pos (by norm_num)]

/-- Rounding a rational that is at least 1 yields at least 1. -/
theorem one_le_pyRound {q : ℚ} (h : 1 ≤ q) : 1 ≤ pyRound q := by
  have h1 : (1 : ℤ) ≤ ⌊q⌋ := Int.le_floor.mpr (by exact_mod_cast h)
  have := pyRound_bounds q
  omega


theorem roundTo1_eq (q : ℚ) : roundTo1 q = (pyRound (10 * q) : ℚ) / 10 := by
  rw [roundTo1, Rat.divInt_eq_div]
  congr 2
  rw [Rat.divInt_eq_div]
  push_cast
  rw [mul_div_assoc, Rat.num_div_den]


/-- A list sorted non-strictly whose elements are distinct is sorted
strictly. -/
theorem sorted_lt_of_le_nodup {α : Type} [LinearOrder α] {s : List α}
    (hle : List.Sorted (· ≤ ·) s) (hnd : s.Nodup) : List.Sorted (· < ·) s :=
  (hle.and hnd).imp (fun h => lt_of_le_of_ne h.1 h.2)

/-- Indexing a list at 0 with a default is taking its default-headed head. -/
theorem getD_zero_eq_headD {α : Type} [Zero α] (l : List α) : l.getD 0 0 = l.headD 0 := by
  cases l <;> rfl

/-- The reducible midpoint average equals the spec's `(a + b) / 2`. -/
theorem qHalf_eq (a b : ℚ) : qDivInt (qAdd a b) 2 = (a + b) / 2 := by
  rw [qDivInt_eq, qAdd_eq]
  norm_num

/-- The default-headed head of a `≤`-sorted list bounds every member. -/
theorem sorted_headD_le {α : Type} [LinearOrder α] [Zero α] {s : List α}
    (hs : List.Sorted (· ≤ ·) s) {x : α} (hx : x ∈ s) : s.headD 0 ≤ x := by
  cases s with
  | nil => cases hx
  | cons a t =>
    rcases List.mem_cons.mp hx with rfl | hxt
    · exact le_refl _
    · exact (List.sorted_cons.mp hs).1 x hxt

/-- Claim C1: `pstats` returns the sentinel on the empty list; otherwise,
with `s` the deduplicated sorted sample list of length `n`, it returns the
rounded minimum, the rounded median (`s[n/2]` for odd `n`, the midpoint
average for even `n`) and `n`; the two spec examples compute as stated. -/
theorem C1_pstats_stats :
    pstats [] = (none, none, 0) ∧
    (∀ prices : List ℚ, prices ≠ [] →
      ∃ s : List ℚ, List.Sorted (· < ·) s ∧ (∀ x : ℚ, x ∈ s ↔ x ∈ prices) ∧
        (∀ x ∈ prices, s.headD 0 ≤ x) ∧
        pstats prices =
          (some (pyRound (s.headD 0)),
           some (pyRound (if s.length % 2 = 1 then s.getD (s.length / 2) 0
             else (s.getD (s.length / 2 - 1) 0 + s.getD (s.length / 2) 0) / 2)),
           s.length)) ∧
    pstats [100, 100, 200] = (some 100, some 150, 2) ∧
    pstats [100, 200, 300, 400] = (some 100, some 250, 4) := by
  refine ⟨by decide, ?_, by decide, by decide⟩
  intro prices hne
  refine ⟨List.insertionSort (· ≤ ·) prices.dedup, ?_, ?_, ?_, ?_⟩
  · exact sorted_lt_of_le_nodup (List.sorted_insertionSort _ _)
      ((List.perm_insertionSort _ _).nodup_iff.mpr prices.nodup_dedup)
  · intro x
    rw [(List.perm_insertionSort _ _).mem_iff, List.mem_dedup]
  · intro x hx
    exact sorted_headD_le (List.sorted_insertionSort _ _)
      (((List.perm_insertionSort _ _).mem_iff).mpr (List.mem_dedup.mpr hx))
  · unfold pstats
    rw [if_neg hne]
    dsimp only
    rw [getD_zero_eq_headD, qHalf_eq]

/-- Witness for C1 at the concrete input `[100, 100, 200]`. -/
theorem C1_pstats_stats_witness :
    ([100, 100, 200] : List ℚ) ≠ [] ∧
    (∃ s : List ℚ, List.Sorted (· < ·) s ∧
      (∀ x : ℚ, x ∈ s ↔ x ∈ ([100, 100, 200] : List ℚ)) ∧
      (∀ x ∈ ([100, 100, 200] : List ℚ), s.headD 0 ≤ x) ∧
      pstats [100, 100, 200] =
        (some (pyRound (s.headD 0)),
         some (pyRound (if s.length % 2 = 1 then s.getD (s.length / 2) 0
           else (s.getD (s.length / 2 - 1) 0 + s.getD (s.length / 2) 0) / 2)),
         s.length)) :=
  ⟨by decide, C1_pstats_stats.2.1 [100, 100, 200] (by decide)⟩

theorem foldl_min_mem (t : List ℤ) : ∀ a : ℤ, t.foldl min a ∈ a :: t := by
  induction t with
  | nil => intro a; simp
  | cons x xs ih =>
    intro a
    rw [List.foldl_cons]
    rcases List.mem_cons.mp (ih (min a x)) with h1 | h1
    · rcases min_choice a x with hm | hm
      · rw [h1, hm]; exact List.mem_cons_self _ _
      · rw [h1, hm]; exact List.mem_cons_of_mem _ (List.mem_cons_self _ _)
    · exact List.mem_cons_of_mem _ (List.mem_cons_of_mem _ h1)

theorem foldl_min_le (t : List ℤ) :
    ∀ a : ℤ, t.foldl min a ≤ a ∧ ∀ x ∈ t, t.foldl min a ≤ x := by
  induction t with
  | nil => intro a; exact ⟨le_refl a, by simp⟩
  | cons x xs ih =>
    intro a
    rw [List.foldl_cons]
    obtain ⟨h1, h2⟩ := ih (min a x)
    refine ⟨le_trans h1 (min_le_left a x), ?_⟩
    intro y hy
    rcases List.mem_cons.mp hy with rfl | hyt
    · exact le_trans h1 (min_le_right a y)
    · exact h2 y hyt

theorem listMin_mem {l : List ℤ} (h : l ≠ []) : listMin l ∈ l := by
  cases l with
  | nil => exact absurd rfl h
  | cons a t => exact foldl_min_mem t a

theorem listMin_le {l : List ℤ} : ∀ x ∈ l, listMin l ≤ x := by
  cases l with
  | nil => intro x hx; cases hx
  | cons a t =>
    intro x hx
    rcases List.mem_cons.mp hx with rfl | hxt
    · exact (foldl_min_le t x).1
    · exact (foldl_min_le t a).2 x hxt

theorem foldl_max_mem (t : List ℤ) : ∀ a : ℤ, t.foldl max a ∈ a :: t := by
  induction t with
  | nil => intro a; simp
  | cons x xs ih =>
    intro a
    rw [List.foldl_cons]
    rcases List.mem_cons.mp (ih (max a x)) with h1 | h1
    · rcases max_choice a x with hm | hm
      · rw [h1, hm]; exact List.mem_cons_self _ _
      · rw [h1, hm]; exact List.mem_cons_of_mem _ (List.mem_cons_self _ _)
    · exact List.mem_cons_of_mem _ (List.mem_cons_of_mem _ h1)

theorem foldl_le_max (t : List ℤ) :
    ∀ a : ℤ, a ≤ t.foldl max a ∧ ∀ x ∈ t, x ≤ t.foldl max a := by
  induction t with
  | nil => intro a; exact ⟨le_refl a, by simp⟩
  | cons x xs ih =>
    intro a
    rw [List.foldl_cons]
    obtain ⟨h1, h2⟩ := ih (max a x)
    refine ⟨le_trans (le_max_left a x) h1, ?_⟩
    intro y hy
    rcases List.mem_cons.mp hy with rfl | hyt
    · exact le_trans (le_max_right a y) h1
    · exact h2 y hyt

theorem listMax_mem {l : List ℤ} (h : l ≠ []) : listMax l ∈ l := by
  cases l with
  | nil => exact absurd rfl h
  | cons a t => exact foldl_max_mem t a

theorem le_listMax {l : List ℤ} : ∀ x ∈ l, x ≤ listMax l := by
  cases l with
  | nil => intro x hx; cases hx
  | cons a t =>
    intro x hx
    rcases List.mem_cons.mp hx with rfl | hxt
    · exact (foldl_le_max t x).1
    · exact (foldl_le_max t a).2 x hxt

theorem filterMap_truthyMedian (l : List PlatformResult) (h : ∀ r ∈ l, r.median ≠ 0) :
    (l.map some).filterMap truthyMedian = l.map (fun r => r.median) := by
  induction l with
  | nil => rfl
  | cons a t ih =>
    have ha : truthyMedian (some a) = some a.median := by
      simp [truthyMedian, h a (List.mem_cons_self a t)]
    simp only [List.map_cons, List.filterMap_cons, ha]
    rw [ih (fun r hr => h r (List.mem_cons_of_mem a hr))]

theorem filterMap_truthyFloor (l : List PlatformResult) (h : ∀ r ∈ l, r.floor ≠ 0) :
    (l.map some).filterMap truthyFloor = l.map (fun r => r.floor) := by
  induction l with
  | nil => rfl
  | cons a t ih =>
    have ha : truthyFloor (some a) = some a.floor := by
      simp [truthyFloor, h a (List.mem_cons_self a t)]
    simp only [List.map_cons, List.filterMap_cons, ha]
    rw [ih (fun r hr => h r (List.mem_cons_of_mem a hr))]

theorem length_le_sum {l : List ℤ} (h : ∀ x ∈ l, 1 ≤ x) : (l.length : ℤ) ≤ l.sum := by
  induction l with
  | nil => simp
  | cons a t ih =>
    simp only [List.length_cons, List.sum_cons]
    push_cast
    have ht := ih (fun x hx => h x (List.mem_cons_of_mem a hx))
    have ha := h a (List.mem_cons_self a t)
    linarith

theorem filter_isSome_map_some (l : List (String × PlatformResult)) :
    (l.map (fun kv => (kv.1, some kv.2))).filter (fun kv => kv.2.isSome) =
    l.map (fun kv => (kv.1, some kv.2)) := by
  induction l with
  | nil => rfl
  | cons a t ih => simp [List.filter_cons, ih]

theorem filterMap_snd_map_some (l : List (String × PlatformResult)) :
    (l.map (fun kv => (kv.1, some kv.2))).filterMap (fun kv => kv.2) =
    l.map (fun kv => kv.2) := by
  induction l with
  | nil => rfl
  | cons a t ih => simp [List.filterMap_cons, ih]

/-- `cross_stats` over an all-truthy active set: the rounded mean of the
medians and the rounded minimum of the floors. -/
theorem cross_stats_map_some (l : List PlatformResult) (hne : l ≠ [])
    (hmed : ∀ r ∈ l, r.median ≠ 0) (hflo : ∀ r ∈ l, r.floor ≠ 0) :
    cross_stats (l.map some) =
      (some (pyRound ((((l.map (fun r => r.median)).sum : ℤ) : ℚ) / (l.length : ℚ))),
       some (pyRound ((listMin (l.map (fun r => r.floor)) : ℤ) : ℚ))) := by
  unfold cross_stats
  rw [filterMap_truthyMedian l hmed, filterMap_truthyFloor l hflo]
  dsimp only
  rw [if_neg (by intro hcon; exact hne (List.map_eq_nil_iff.mp hcon))]
  rw [if_neg (by intro hcon; exact hne (List.map_eq_nil_iff.mp hcon))]
  rw [intDivQ_eq]
  rw [List.length_map]
  push_cast
  rfl

/-- Claim C2: over every non-empty active set of positive platform results,
the aggregation step produces the rounded mean of medians, the rounded
minimum of floors, the summed inventory and the spread formula (0 below two
platforms); the spec's two-platform example computes to crossMedian 1100,
crossFloor 900, inventory 15 and spread 18.2. -/
theorem C2_aggregator :
    (∀ (platforms : List (String × PlatformResult)) (prevFile : Option HistoryDoc)
      (today ts : ℕ), platforms ≠ [] →
      (∀ kv ∈ platforms, 0 < kv.2.median ∧ 0 < kv.2.floor) →
      AggregatorSpec platforms prevFile today ts) ∧
    (scrapeCycle [("a", some ⟨900, 1000, 10⟩), ("b", some ⟨1100, 1200, 5⟩)]
        none 7 8).toOption.map
      (fun pr => (pr.2.cross_median, pr.2.cross_floor, pr.2.total_inventory,
        pr.2.platform_spread_pct)) =
      some (some 1100, some 900, 15, Rat.divInt 182 10) := by
  constructor
  · intro platforms prevFile today ts hne hpos
    have hres : ∀ r ∈ platforms.map (fun kv => kv.2), r.median ≠ 0 ∧ r.floor ≠ 0 := by
      intro r hr
      rcases List.mem_map.mp hr with ⟨kv, hkv, rfl⟩
      exact ⟨(hpos kv hkv).1.ne', (hpos kv hkv).2.ne'⟩
    have hresne : platforms.map (fun kv => kv.2) ≠ [] := by
      intro hcon; exact hne (List.map_eq_nil_iff.mp hcon)
    have hcs := cross_stats_map_some (platforms.map (fun kv => kv.2)) hresne
      (fun r hr => (hres r hr).1) (fun r hr => (hres r hr).2)
    have hmean1 : 1 ≤ (((platforms.map (fun kv => kv.2.median)).sum : ℤ) : ℚ) /
        (platforms.length : ℚ) := by
      have hlen : 0 < (platforms.length : ℚ) := by
        have := List.length_pos.mpr hne
        exact_mod_cast this
      rw [one_le_div hlen]
      have hsum : ((platforms.map (fun kv => kv.2.median)).length : ℤ) ≤
          (platforms.map (fun kv => kv.2.median)).sum := by
        apply length_le_sum
        intro x hx
        rcases List.mem_map.mp hx with ⟨kv, hkv, rfl⟩
        exact (hpos kv hkv).1
      rw [List.length_map] at hsum
      exact_mod_cast hsum
    have hcm1 : 1 ≤ pyRound ((((platforms.map (fun kv => kv.2.median)).sum : ℤ) : ℚ) /
        (platforms.length : ℚ)) := one_le_pyRound hmean1
    unfold AggregatorSpec
    unfold scrapeCycle
    rw [filter_isSome_map_some]
    rw [if_neg (by intro hcon; exact hne (List.map_eq_nil_iff.mp hcon))]
    rw [filterMap_snd_map_some]
    refine ⟨_, _, rfl, ?_, ?_, ?_, ?_, ?_, ?_, ?_⟩
    · dsimp only
      rw [hcs]
      simp only [List.map_map, List.length_map, Function.comp_def]
    · constructor
      · exact listMin_mem (by intro hcon; exact hne (List.map_eq_nil_iff.mp hcon))
      · exact fun g hg => listMin_le g hg
    · dsimp only
      rw [hcs]
      simp only [List.map_map, Function.comp_def]
    · dsimp only
      simp only [List.map_map, Function.comp_def]
    · constructor
      · exact listMax_mem (by intro hcon; exact hne (List.map_eq_nil_iff.mp hcon))
      · exact fun g hg => le_listMax g hg
    · intro h2
      dsimp only
      rw [hcs]
      simp only [List.map_map, List.length_map, Function.comp_def, Option.getD_some]
      rw [if_pos]
      · rw [intDivQ_eq]
        congr 1
        push_cast
        ring
      · refine ⟨h2, ?_⟩
        simp only [truthyOptInt]
        rw [bne_iff_ne]
        omega
    · intro h2
      dsimp only
      rw [hcs]
      simp only [List.map_map, List.length_map, Function.comp_def]
      rw [if_neg]
      intro hcon
      omega
  · decide

/-- Witness for C2 at the spec's example active set. -/
theorem C2_aggregator_witness :
    AggregatorSpec [("a", ⟨900, 1000, 10⟩), ("b", ⟨1100, 1200, 5⟩)] none 7 8 :=
  C2_aggregator.1 [("a", ⟨900, 1000, 10⟩), ("b", ⟨1100, 1200, 5⟩)] none 7 8
    (by decide) (by decide)

theorem byDate_trans : ∀ a b c : DailyRecord, byDate a b → byDate b c → byDate a c := by
  intro a b c hab hbc
  simp only [byDate, decide_eq_true_eq] at hab hbc ⊢
  omega

theorem byDate_total : ∀ a b : DailyRecord, byDate a b || byDate b a := by
  intro a b
  simp only [byDate, Bool.or_eq_true, decide_eq_true_eq]
  omega

/-- `upsert` permutes the filtered history with the new record appended. -/
theorem upsert_perm (history : List DailyRecord) (today : DailyRecord) :
    (upsert history today).Perm
      ((history.filter (fun h => h.date != today.date)) ++ [today]) := by
  unfold upsert
  exact List.mergeSort_perm _ _

/-- `upsert` output is sorted by date (non-strictly). -/
theorem upsert_le_sorted (history : List DailyRecord) (today : DailyRecord) :
    List.Pairwise (fun a b : DailyRecord => a.date ≤ b.date) (upsert history today) := by
  unfold upsert
  have h := List.sorted_mergeSort byDate_trans byDate_total
    ((history.filter (fun h => h.date != today.date)) ++ [today])
  exact h.imp (fun hab => by simpa [byDate, decide_eq_true_eq] using hab)

/-- Upserting twice at one date is, up to order, the history cleared of that
date with only the second record appended. -/
theorem upsert_upsert_perm (history : List DailyRecord) (r1 r2 : DailyRecord)
    (hdate : r1.date = r2.date) :
    (upsert (upsert history r1) r2).Perm
      ((history.filter (fun h => h.date != r2.date)) ++ [r2]) := by
  refine (upsert_perm (upsert history r1) r2).trans ?_
  apply List.Perm.append_right
  refine ((upsert_perm history r1).filter _).trans ?_
  rw [List.filter_append]
  have hr1 : ([r1].filter (fun h => h.date != r2.date)) = [] := by
    simp [hdate]
  rw [hr1, List.append_nil, hdate, List.filter_filter]
  simp

/-- Claim C3: upserting two same-dated records into a date-sorted history
leaves exactly one record at that date — the second one — and a strictly
date-sorted, duplicate-free history. -/
theorem C3_upsert_idempotent (history : List DailyRecord) (r1 r2 : DailyRecord)
    (hsorted : List.Sorted (· < ·) (history.map DailyRecord.date))
    (hdate : r1.date = r2.date) :
    (upsert (upsert history r1) r2).filter (fun h => h.date == r2.date) = [r2] ∧
    List.Sorted (· < ·) ((upsert (upsert history r1) r2).map DailyRecord.date) := by
  have hperm := upsert_upsert_perm history r1 r2 hdate
  have hfilterne : ∀ h ∈ history.filter (fun h => h.date != r2.date), h.date ≠ r2.date := by
    intro h hh
    have := (List.mem_filter.mp hh).2
    exact bne_iff_ne.mp this
  constructor
  · have hp := hperm.filter (fun h => h.date == r2.date)
    rw [List.filter_append] at hp
    have h1 : ((history.filter (fun h => h.date != r2.date)).filter
        (fun h => h.date == r2.date)) = [] := by
      rw [List.filter_eq_nil_iff]
      intro a ha
      simp only [beq_iff_eq]
      exact fun hcon => (hfilterne a ha) (by exact_mod_cast hcon)
    have h2 : ([r2].filter (fun h => h.date == r2.date)) = [r2] := by simp
    rw [h1, h2, List.nil_append] at hp
    exact List.perm_singleton.mp hp
  · have hnodupdates : ((upsert (upsert history r1) r2).map DailyRecord.date).Nodup := by
      have hmapperm := hperm.map DailyRecord.date
      rw [List.map_append] at hmapperm
      apply hmapperm.nodup_iff.mpr
      rw [List.nodup_append]
      refine ⟨?_, List.nodup_singleton _, ?_⟩
      · have hsub : (history.filter (fun h => h.date != r2.date)).Sublist history :=
          List.filter_sublist _
        exact ((hsub.map DailyRecord.date).nodup (hsorted.imp ne_of_lt))
      · intro d hd
        rcases List.mem_map.mp hd with ⟨h, hh, rfl⟩
        simp only [List.map_singleton, List.mem_singleton]
        exact fun hcon => (hfilterne h hh) hcon
    have hle := (upsert_le_sorted (upsert history r1) r2)
    have hlemap : List.Pairwise (· ≤ ·)
        ((upsert (upsert history r1) r2).map DailyRecord.date) :=
      (List.pairwise_map).mpr hle
    have hnemap : List.Pairwise (· ≠ ·)
        ((upsert (upsert history r1) r2).map DailyRecord.date) := hnodupdates
    exact (hlemap.and hnemap).imp (fun h => lt_of_le_of_ne h.1 h.2)

/-- Witness for C3 on a concrete one-day history and two same-dated runs. -/
theorem C3_upsert_idempotent_witness :
    (upsert (upsert [sampleRec 1 (some 1000) (some 900) 10]
        (sampleRec 2 (some 1100) (some 950) 12)) (sampleRec 2 (some 1200) (some 980) 9)).filter
      (fun h => h.date == (sampleRec 2 (some 1200) (some 980) 9).date) =
      [sampleRec 2 (some 1200) (some 980) 9] ∧
    List.Sorted (· < ·)
      ((upsert (upsert [sampleRec 1 (some 1000) (some 900) 10]
        (sampleRec 2 (some 1100) (some 950) 12))
        (sampleRec 2 (some 1200) (some 980) 9)).map DailyRecord.date) :=
  C3_upsert_idempotent [sampleRec 1 (some 1000) (some 900) 10]
    (sampleRec 2 (some 1100) (some 950) 12) (sampleRec 2 (some 1200) (some 980) 9)
    (by decide) rfl

theorem filterMap_truthyCM (l : List DailyRecord)
    (h : ∀ x ∈ l, ∃ m, x.cross_median = some m ∧ m ≠ 0) :
    l.filterMap (fun x => optTruthyInt x.cross_median) =
    l.map (fun x => x.cross_median.getD 0) := by
  induction l with
  | nil => rfl
  | cons a t ih =>
    obtain ⟨m, hm, hm0⟩ := h a (List.mem_cons_self a t)
    have ha : optTruthyInt a.cross_median = some (a.cross_median.getD 0) := by
      rw [hm]
      simp [optTruthyInt, hm0]
    simp only [List.filterMap_cons, List.map_cons, ha]
    rw [ih (fun x hx => h x (List.mem_cons_of_mem a hx))]

theorem filterMap_truthyCF (l : List DailyRecord)
    (h : ∀ x ∈ l, ∃ f, x.cross_floor = some f ∧ f ≠ 0) :
    l.filterMap (fun x => optTruthyInt x.cross_floor) =
    l.map (fun x => x.cross_floor.getD 0) := by
  induction l with
  | nil => rfl
  | cons a t ih =>
    obtain ⟨f, hf, hf0⟩ := h a (List.mem_cons_self a t)
    have ha : optTruthyInt a.cross_floor = some (a.cross_floor.getD 0) := by
      rw [hf]
      simp [optTruthyInt, hf0]
    simp only [List.filterMap_cons, List.map_cons, ha]
    rw [ih (fun x hx => h x (List.mem_cons_of_mem a hx))]

theorem filterMap_truthyInv (l : List DailyRecord)
    (h : ∀ x ∈ l, x.total_inventory ≠ 0) :
    l.filterMap (fun x => if x.total_inventory ≠ 0 then some x.total_inventory else none) =
    l.map (fun x => x.total_inventory) := by
  induction l with
  | nil => rfl
  | cons a t ih =>
    simp only [List.filterMap_cons, List.map_cons, if_pos (h a (List.mem_cons_self a t))]
    rw [ih (fun x hx => h x (List.mem_cons_of_mem a hx))]

theorem getD_append2_last (l : List ℤ) (a b : ℤ) :
    (l ++ [a, b]).getD (l.length + 1) 0 = b := by
  induction l with
  | nil => rfl
  | cons x t ih =>
    show ((x :: (t ++ [a, b])).getD (t.length + 1 + 1) 0) = b
    rw [List.getD_cons_succ]
    exact ih

theorem getD_append2_prev (l : List ℤ) (a b : ℤ) :
    (l ++ [a, b]).getD l.length 0 = a := by
  induction l with
  | nil => rfl
  | cons x t ih =>
    show ((x :: (t ++ [a, b])).getD (t.length + 1) 0) = a
    rw [List.getD_cons_succ]
    exact ih

/-- Claim C4 amended: the trend block reads the last two entries of each
truthiness-filtered column, so only over a date-sorted history whose
records all carry positive `crossMedian`, `crossFloor` and
`totalInventory` does it derive its metrics from the two most recent
records: slope `(m2 − m1)/7`, floor acceleration `f2 − f1`, and inventory
week-over-week `(i2 − i1)/i1 × 100`, each to one decimal; with fewer than
two records the slope and acceleration are 0 and the week-over-week is
`None`; the spec's 1000→1070 example gives slope 10.0. (A record with a
zero or missing value is skipped by the corresponding column, not treated
as the previous record — see the counterexample.) -/
theorem C4_trends :
    (∀ (hs : List DailyRecord) (r1 r2 : DailyRecord),
      (∀ x ∈ hs ++ [r1, r2],
        (∃ m, x.cross_median = some m ∧ 0 < m) ∧
        (∃ f, x.cross_floor = some f ∧ 0 < f) ∧ 0 < x.total_inventory) →
      List.Sorted (· < ·) ((hs ++ [r1, r2]).map DailyRecord.date) →
      (computeTrends (hs ++ [r1, r2])).median_7d_slope =
        roundTo1 ((((r2.cross_median.getD 0 : ℤ) : ℚ) -
          ((r1.cross_median.getD 0 : ℤ) : ℚ)) / 7) ∧
      (computeTrends (hs ++ [r1, r2])).floor_7d_accel =
        roundTo1 (((r2.cross_floor.getD 0 : ℤ) : ℚ) - ((r1.cross_floor.getD 0 : ℤ) : ℚ)) ∧
      (computeTrends (hs ++ [r1, r2])).inventory_wow_pct =
        some (roundTo1 (((r2.total_inventory : ℚ) - (r1.total_inventory : ℚ)) /
          (r1.total_inventory : ℚ) * 100))) ∧
    (∀ r : DailyRecord,
      (computeTrends [r]).median_7d_slope = 0 ∧
      (computeTrends [r]).floor_7d_accel = 0 ∧
      (computeTrends [r]).inventory_wow_pct = none) ∧
    ((computeTrends []).median_7d_slope = 0 ∧
      (computeTrends []).floor_7d_accel = 0 ∧
      (computeTrends []).inventory_wow_pct = none) ∧
    (computeTrends [sampleRec 1 (some 1000) (some 900) 10,
      sampleRec 2 (some 1070) (some 950) 12]).median_7d_slope = 10 := by
  refine ⟨?_, ?_, by decide, by decide⟩
  · intro hs r1 r2 hpos hsorted
    have hr1mem : r1 ∈ hs ++ [r1, r2] := by simp
    have hcm := filterMap_truthyCM (hs ++ [r1, r2]) (fun x hx => by
      obtain ⟨⟨m, hm, hm0⟩, _, _⟩ := hpos x hx
      exact ⟨m, hm, hm0.ne'⟩)
    have hcf := filterMap_truthyCF (hs ++ [r1, r2]) (fun x hx => by
      obtain ⟨_, ⟨f, hf, hf0⟩, _⟩ := hpos x hx
      exact ⟨f, hf, hf0.ne'⟩)
    have hinv := filterMap_truthyInv (hs ++ [r1, r2]) (fun x hx => (hpos x hx).2.2.ne')
    unfold computeTrends
    dsimp only
    rw [hcm, hcf, hinv]
    rw [List.map_append, List.map_append, List.map_append]
    simp only [List.map_cons, List.map_nil]
    refine ⟨?_, ?_, ?_⟩
    · rw [if_pos (by simp)]
      have hidx1 : (hs.map (fun x => x.cross_median.getD 0) ++
          [r1.cross_median.getD 0, r2.cross_median.getD 0]).length - 1 =
          (hs.map (fun x => x.cross_median.getD 0)).length + 1 := by simp
      have hidx2 : (hs.map (fun x => x.cross_median.getD 0) ++
          [r1.cross_median.getD 0, r2.cross_median.getD 0]).length - 2 =
          (hs.map (fun x => x.cross_median.getD 0)).length := by simp
      rw [hidx1, hidx2, getD_append2_last, getD_append2_prev, intDivQ_eq]
      congr 1
      push_cast
      ring
    · rw [if_pos (by simp)]
      have hidx1 : (hs.map (fun x => x.cross_floor.getD 0) ++
          [r1.cross_floor.getD 0, r2.cross_floor.getD 0]).length - 1 =
          (hs.map (fun x => x.cross_floor.getD 0)).length + 1 := by simp
      have hidx2 : (hs.map (fun x => x.cross_floor.getD 0) ++
          [r1.cross_floor.getD 0, r2.cross_floor.getD 0]).length - 2 =
          (hs.map (fun x => x.cross_floor.getD 0)).length := by simp
      rw [hidx1, hidx2, getD_append2_last, getD_append2_prev]
      congr 1
      push_cast
      ring
    · rw [if_pos (by simp)]
      have hidx1 : (hs.map (fun x => x.total_inventory) ++
          [r1.total_inventory, r2.total_inventory]).length - 1 =
          (hs.map (fun x => x.total_inventory)).length + 1 := by simp
      have hidx2 : (hs.map (fun x => x.total_inventory) ++
          [r1.total_inventory, r2.total_inventory]).length - 2 =
          (hs.map (fun x => x.total_inventory)).length := by simp
      rw [hidx1, hidx2, getD_append2_last, getD_append2_prev]
      dsimp only
      rw [if_pos (hpos r1 hr1mem).2.2.ne']
      rw [intDivQ_eq]
      congr 2
      push_cast
      ring
  · intro r
    have hm : ([r].filterMap (fun x => optTruthyInt x.cross_median)).length ≤ 1 := by
      rcases h : optTruthyInt r.cross_median with _ | v <;> simp [List.filterMap_cons, h]
    have hf : ([r].filterMap (fun x => optTruthyInt x.cross_floor)).length ≤ 1 := by
      rcases h : optTruthyInt r.cross_floor with _ | v <;> simp [List.filterMap_cons, h]
    have hi : ([r].filterMap
        (fun x => if x.total_inventory ≠ 0 then some x.total_inventory else none)).length ≤ 1 := by
      by_cases h : r.total_inventory ≠ 0 <;> simp [List.filterMap_cons, h]
    unfold computeTrends
    dsimp only
    refine ⟨?_, ?_, ?_⟩
    · rw [if_neg (by omega)]
    · rw [if_neg (by omega)]
    · rw [if_neg (by omega)]

/-- Claim C5: a cycle in which no platform produced data fails fatally —
`last_error` records the raise's message, no `DailyRecord` is produced, the
persisted document is returned unchanged, and `run_scrape` absorbs the
exception (it returns normally with `running` cleared). -/
theorem C5_empty_active_fatal (st : ScrapeState)
    (platforms : List (String × Option PlatformResult)) (prevFile : Option HistoryDoc)
    (today ts : ℕ) (hempty : ∀ kv ∈ platforms, kv.2 = none) :
    run_scrape st platforms prevFile today ts =
      ({ running := false, last_success := st.last_success,
         last_error := some "All platforms returned no data.",
         started_at := some ts }, prevFile, none) := by
  have hactive : platforms.filter (fun kv => kv.2.isSome) = [] := by
    rw [List.filter_eq_nil_iff]
    intro kv hkv
    rw [hempty kv hkv]
    simp
  unfold run_scrape scrapeCycle runScrapeWith
  rw [hactive]
  rfl

/-- Witness for C5: all four scrapers empty against a persisted document. -/
theorem C5_empty_active_fatal_witness :
    run_scrape initState
      [("stubhub", none), ("seatgeek", none), ("tickpick", none), ("vividseats", none)]
      (some sampleDoc) 7 9 =
      ({ running := false, last_success := initState.last_success,
         last_error := some "All platforms returned no data.",
         started_at := some 9 }, some sampleDoc, none) :=
  C5_empty_active_fatal initState
    [("stubhub", none), ("seatgeek", none), ("tickpick", none), ("vividseats", none)]
    (some sampleDoc) 7 9 (by decide)

/-- Claim C10: whatever the outcome of the cycle body — success, the fatal
empty-active-set error, or any other raised exception (an arbitrary
`Except.error`) — the `finally` clause leaves `running` false, so a failed
cycle never wedges the mutual-exclusion flag. -/
theorem C10_running_always_cleared :
    (∀ (outcome : Except String (HistoryDoc × DailyRecord)) (st : ScrapeState)
      (prevFile : Option HistoryDoc) (ts : ℕ),
      (runScrapeWith outcome st prevFile ts).1.running = false) ∧
    (∀ (st : ScrapeState) (platforms : List (String × Option PlatformResult))
      (prevFile : Option HistoryDoc) (today ts : ℕ),
      (run_scrape st platforms prevFile today ts).1.running = false) := by
  constructor
  · intro outcome st prevFile ts
    cases outcome with
    | ok v =>
      obtain ⟨doc, rec⟩ := v
      rfl
    | error e => rfl
  · intro st platforms prevFile today ts
    unfold run_scrape
    cases hsc : scrapeCycle platforms prevFile today ts with
    | ok v =>
      obtain ⟨doc, rec⟩ := v
      rfl
    | error e => rfl

/-- Witness for C4 at the spec's 1000→1070 example history. -/
theorem C4_trends_witness :
    (computeTrends ([] ++ [sampleRec 1 (some 1000) (some 900) 10,
        sampleRec 2 (some 1070) (some 950) 12])).median_7d_slope =
      roundTo1 (((((sampleRec 2 (some 1070) (some 950) 12).cross_median.getD 0 : ℤ) : ℚ) -
        (((sampleRec 1 (some 1000) (some 900) 10).cross_median.getD 0 : ℤ) : ℚ)) / 7) :=
  (C4_trends.1 [] (sampleRec 1 (some 1000) (some 900) 10)
    (sampleRec 2 (some 1070) (some 950) 12) (by decide) (by decide)).1

/-- Claim C4 counterexample: a record whose `totalInventory` is zero is
reachable — the `/relay` handler never validates `count`, so a `count: 0`
submission flows through the seatgeek relay scraper into a `DailyRecord`
with `total_inventory = 0` (first conjunct). On a date-sorted history whose
previous (second most recent) record has zero inventory, the claim demands
`inventoryWowPct = null`; instead the truthiness filter of the `invs`
comprehension drops that record and back-fills the prior inventory from the
older record, producing `(7 − 5)/5 × 100 = 40.0` — not null, and not
derived from the two most recent records. -/
theorem C4_trends_counterexample :
    (scrapeCycle [("seatgeek",
        scrapeRelay (some (relayHandler ⟨some "seatgeek", some 1700, some 1850, some 0⟩ []
          initState 7 7).2.1) "seatgeek" 7)] none 7 7).toOption.map
      (fun pr => pr.2.total_inventory) = some 0 ∧
    List.Sorted (· < ·) (([sampleRec 1 (some 1000) (some 900) 5,
      sampleRec 2 (some 1100) (some 950) 0,
      sampleRec 3 (some 1070) (some 980) 7]).map DailyRecord.date) ∧
    (sampleRec 2 (some 1100) (some 950) 0).total_inventory = 0 ∧
    (computeTrends [sampleRec 1 (some 1000) (some 900) 5,
      sampleRec 2 (some 1100) (some 950) 0,
      sampleRec 3 (some 1070) (some 980) 7]).inventory_wow_pct = some 40 ∧
    (computeTrends [sampleRec 1 (some 1000) (some 900) 5,
      sampleRec 2 (some 1100) (some 950) 0,
      sampleRec 3 (some 1070) (some 980) 7]).inventory_wow_pct ≠ none ∧
    (computeTrends [sampleRec 1 (some 1000) (some 900) 5,
      sampleRec 2 (some 1100) (some 950) 0,
      sampleRec 3 (some 1070) (some 980) 7]).prior_inventory =
      some (sampleRec 1 (some 1000) (some 900) 5).total_inventory :=
  ⟨by decide, by decide, by decide, by decide, by decide, by decide⟩

/-- Claim C6: a relay submission missing platform/floor/median (a blank
platform counts as missing, as the handler strips it) or carrying a price
outside `[PRICE_MIN, PRICE_MAX]` is rejected with a descriptive message and
leaves both the relay store and the scrape state untouched; a submission
with a platform name and both prices in bounds is accepted. -/
theorem C6_relay_validation (body : RelayBody) (relay : RelayStore) (st : ScrapeState)
    (today ts : ℕ) :
    ((body.platform = none ∨ pyStrip (pyLower (body.platform.getD "")) = "" ∨
      body.floor = none ∨ body.median = none ∨
      (∃ f, body.floor = some f ∧ (f < PRICE_MIN ∨ PRICE_MAX < f)) ∨
      (∃ m, body.median = some m ∧ (m < PRICE_MIN ∨ PRICE_MAX < m))) →
      ∃ msg, relayHandler body relay st today ts = (RelayResp.badRequest msg, relay, st)) ∧
    (∀ p f m, body.platform = some p → pyStrip (pyLower p) ≠ "" →
      body.floor = some f → PRICE_MIN ≤ f → f ≤ PRICE_MAX →
      body.median = some m → PRICE_MIN ≤ m → m ≤ PRICE_MAX →
      (relayHandler body relay st today ts).1 =
        RelayResp.saved (pyStrip (pyLower p)) f m) := by
  constructor
  · intro hrej
    unfold relayHandler
    by_cases h1 : pyStrip (pyLower (body.platform.getD "")) = "" ∨
        ¬ truthyOptQ body.floor ∨ ¬ truthyOptQ body.median
    · rw [if_pos h1]
      exact ⟨_, rfl⟩
    · push_neg at h1
      obtain ⟨hpl, hfl, hml⟩ := h1
      rw [if_neg (by push_neg; exact ⟨hpl, hfl, hml⟩)]
      have hbnd : ¬ (PRICE_MIN ≤ (body.floor).getD 0 ∧ (body.floor).getD 0 ≤ PRICE_MAX ∧
          PRICE_MIN ≤ (body.median).getD 0 ∧ (body.median).getD 0 ≤ PRICE_MAX) := by
        rcases hrej with h | h | h | h | ⟨f, hf, hout⟩ | ⟨m, hm, hout⟩
        · rw [h] at hpl
          exact absurd (by decide) hpl
        · exact absurd h hpl
        · rw [h] at hfl
          simp [truthyOptQ] at hfl
        · rw [h] at hml
          simp [truthyOptQ] at hml
        · rw [hf]
          intro hcon
          rw [Option.getD_some] at hcon
          rcases hout with hout | hout
          · exact absurd hcon.1 (not_le.mpr hout)
          · exact absurd hcon.2.1 (not_le.mpr hout)
        · rw [hm]
          intro hcon
          rw [Option.getD_some] at hcon
          rcases hout with hout | hout
          · exact absurd hcon.2.2.1 (not_le.mpr hout)
          · exact absurd hcon.2.2.2 (not_le.mpr hout)
      rw [if_pos hbnd]
      exact ⟨_, rfl⟩
  · intro p f m hp hpne hf hfmin hfmax hm hmmin hmmax
    have hf0 : f ≠ 0 := by
      intro hcon
      rw [hcon] at hfmin
      rw [show PRICE_MIN = (800 : ℚ) from rfl] at hfmin
      norm_num at hfmin
    have hm0 : m ≠ 0 := by
      intro hcon
      rw [hcon] at hmmin
      rw [show PRICE_MIN = (800 : ℚ) from rfl] at hmmin
      norm_num at hmmin
    unfold relayHandler
    rw [hp, hf, hm]
    rw [if_neg (by
      push_neg
      refine ⟨by simpa using hpne, ?_, ?_⟩
      · simp [truthyOptQ, hf0]
      · simp [truthyOptQ, hm0])]
    rw [if_neg (by
      push_neg
      exact ⟨by simpa using hfmin, by simpa using hfmax, by simpa using hmmin,
        by simpa using hmmax⟩)]
    simp

/-- Witness for C6: a floor below `PRICE_MIN` is rejected leaving the relay
store and the scrape state unchanged, and an in-bounds submission is saved. -/
theorem C6_relay_validation_witness :
    (∃ msg, relayHandler ⟨some "seatgeek", some 500, some 1850, some 22⟩ [] initState 7 7 =
      (RelayResp.badRequest msg, [], initState)) ∧
    (relayHandler ⟨some "seatgeek", some 1700, some 1850, some 22⟩ [] initState 7 7).1 =
      RelayResp.saved (pyStrip (pyLower "seatgeek")) 1700 1850 := by
  constructor
  · exact (C6_relay_validation ⟨some "seatgeek", some 500, some 1850, some 22⟩ [] initState
      7 7).1 (Or.inr (Or.inr (Or.inr (Or.inr (Or.inl
        ⟨500, rfl, Or.inl (by rw [show PRICE_MIN = (800 : ℚ) from rfl]; norm_num)⟩)))))
  · exact (C6_relay_validation ⟨some "seatgeek", some 1700, some 1850, some 22⟩ [] initState
      7 7).2 "seatgeek" 1700 1850 rfl (by decide)
      rfl (by decide) (by decide) rfl (by decide) (by decide)

theorem storeGet_storeSet_self (s : RelayStore) (k : String) (e : RelayEntry) :
    storeGet (storeSet s k e) k = some e := by
  induction s with
  | nil => simp [storeSet, storeGet, List.find?]
  | cons kv rest ih =>
    by_cases h : kv.1 = k
    · simp [storeSet, h, storeGet, List.find?]
    · unfold storeSet
      rw [if_neg h]
      unfold storeGet
      rw [List.find?]
      have hbeq : (kv.1 == k) = false := by
        simp [h]
      rw [hbeq]
      exact ih

/-- Claim C7: a stored relay entry whose date is not the cycle's current UTC
date is never returned by the relay scraper — exactly as if it were absent —
and an entry accepted on day `d` is never used on any other day `d'`. -/
theorem C7_relay_date_scoped :
    (∀ (relay : RelayStore) (name : String) (today : ℕ) (e : RelayEntry),
      storeGet relay name = some e → e.date ≠ today →
      scrapeRelay (some relay) name today = none) ∧
    (∀ (relay : RelayStore) (name : String) (today : ℕ),
      storeGet relay name = none → scrapeRelay (some relay) name today = none) ∧
    (∀ (body : RelayBody) (relay : RelayStore) (st : ScrapeState) (d ts d' : ℕ)
      (pl : String) (f m : ℚ),
      (relayHandler body relay st d ts).1 = RelayResp.saved pl f m → d' ≠ d →
      scrapeRelay (some (relayHandler body relay st d ts).2.1) pl d' = none) := by
  refine ⟨?_, ?_, ?_⟩
  · intro relay name today e hget hne
    unfold scrapeRelay
    dsimp only
    rw [hget]
    dsimp only
    rw [if_neg hne]
  · intro relay name today hget
    unfold scrapeRelay
    dsimp only
    rw [hget]
  · intro body relay st d ts d' pl f m hsaved hne
    unfold relayHandler at hsaved ⊢
    by_cases h1 : pyStrip (pyLower (body.platform.getD "")) = "" ∨
        ¬ truthyOptQ body.floor ∨ ¬ truthyOptQ body.median
    · rw [if_pos h1] at hsaved
      exact absurd hsaved (by simp)
    · rw [if_neg h1] at hsaved ⊢
      by_cases h2 : ¬ (PRICE_MIN ≤ (body.floor).getD 0 ∧ (body.floor).getD 0 ≤ PRICE_MAX ∧
          PRICE_MIN ≤ (body.median).getD 0 ∧ (body.median).getD 0 ≤ PRICE_MAX)
      · rw [if_pos h2] at hsaved
        exact absurd hsaved (by simp)
      · rw [if_neg h2] at hsaved ⊢
        dsimp only at hsaved ⊢
        injection hsaved with hpl hfv hmv
        subst hpl
        unfold scrapeRelay
        dsimp only
        rw [storeGet_storeSet_self]
        dsimp only
        rw [if_neg (fun hc => hne hc.symm)]

/-- Witness for C7: a yesterday-dated seatgeek entry is skipped today, an
absent entry is skipped, and an entry accepted on day 7 is unused on day 8. -/
theorem C7_relay_date_scoped_witness :
    scrapeRelay (some [("seatgeek", ⟨1700, 1850, 22, 5, 5⟩)]) "seatgeek" 6 = none ∧
    scrapeRelay (some []) "seatgeek" 6 = none ∧
    scrapeRelay
      (some (relayHandler ⟨some "seatgeek", some 1700, some 1850, some 22⟩ [] initState
        7 7).2.1) (pyStrip (pyLower "seatgeek")) 8 = none := by
  refine ⟨?_, ?_, ?_⟩
  · exact C7_relay_date_scoped.1 [("seatgeek", ⟨1700, 1850, 22, 5, 5⟩)] "seatgeek" 6
      ⟨1700, 1850, 22, 5, 5⟩ (by decide) (by decide)
  · exact C7_relay_date_scoped.2.1 [] "seatgeek" 6 (by decide)
  · exact C7_relay_date_scoped.2.2 ⟨some "seatgeek", some 1700, some 1850, some 22⟩ []
      initState 7 7 8 (pyStrip (pyLower "seatgeek")) 1700 1850 (by decide) (by decide)

/-- The head of a `≤`-sorted list bounds the entry at any valid index. -/
theorem sorted_headD_le_getD {s : List ℚ} (hs : List.Sorted (· ≤ ·) s) {i : ℕ}
    (hi : i < s.length) : s.headD 0 ≤ s.getD i 0 := by
  rw [List.getD_eq_getElem s 0 hi]
  exact sorted_headD_le hs (List.getElem_mem hi)

/-- Claim C8 counterexample: the `/relay` handler checks only the bounds of
floor and median, never their order, so the submission floor 2000 / median
900 is accepted; the seatgeek relay scraper then returns a `PlatformResult`
with floor > median on the same day, and a scrape cycle carries it into the
active set of its `DailyRecord`. -/
theorem C8_floor_le_median_counterexample :
    (relayHandler ⟨some "seatgeek", some 2000, some 900, some 5⟩ [] initState 7 7).1 =
      RelayResp.saved "seatgeek" 2000 900 ∧
    scrapeRelay (some (relayHandler ⟨some "seatgeek", some 2000, some 900, some 5⟩ []
      initState 7 7).2.1) "seatgeek" 7 =
      some { floor := 2000, median := 900, total_count := 5 } ∧
    ¬ ((2000 : ℤ) ≤ (900 : ℤ)) ∧
    (scrapeCycle [("seatgeek",
        scrapeRelay (some (relayHandler ⟨some "seatgeek", some 2000, some 900, some 5⟩ []
          initState 7 7).2.1) "seatgeek" 7)] none 7 7).toOption.map
      (fun pr => pr.2.platforms) =
      some [("seatgeek", { floor := 2000, median := 900, total_count := 5 })] :=
  ⟨by decide, by decide, by decide, by decide⟩

/-- Claim C8 amended: every `PlatformResult` produced by direct extraction
through `pstats` satisfies floor ≤ median; a relay-sourced result is only
guaranteed the bounds checks on floor and median (their order is not
validated, as the counterexample shows). -/
theorem C8_floor_le_median_amended :
    (∀ (prices : List ℚ) (r : PlatformResult), directResult prices = some r →
      r.floor ≤ r.median) ∧
    (∀ (body : RelayBody) (relay : RelayStore) (st : ScrapeState) (d ts : ℕ)
      (pl : String) (f m : ℚ),
      (relayHandler body relay st d ts).1 = RelayResp.saved pl f m →
      PRICE_MIN ≤ f ∧ f ≤ PRICE_MAX ∧ PRICE_MIN ≤ m ∧ m ≤ PRICE_MAX) := by
  constructor
  · intro prices r hr
    by_cases hne : prices = []
    · subst hne
      simp [directResult, pstats] at hr
    · unfold directResult pstats at hr
      rw [if_neg hne] at hr
      dsimp only at hr
      simp only [Option.getD_some] at hr
      by_cases h0 : pyRound ((List.insertionSort (· ≤ ·) prices.dedup).getD 0 0) ≠ 0
      · rw [if_pos h0] at hr
        have hsne : List.insertionSort (· ≤ ·) prices.dedup ≠ [] := by
          intro hcon
          apply hne
          apply (List.dedup_eq_nil _).mp
          have hperm := List.perm_insertionSort (· ≤ ·) prices.dedup
          rw [hcon] at hperm
          exact hperm.symm.eq_nil
        have hslen : 0 < (List.insertionSort (· ≤ ·) prices.dedup).length :=
          List.length_pos.mpr hsne
        have hsort : List.Sorted (· ≤ ·) (List.insertionSort (· ≤ ·) prices.dedup) :=
          List.sorted_insertionSort _ _
        have hmid1 : (List.insertionSort (· ≤ ·) prices.dedup).length / 2 <
            (List.insertionSort (· ≤ ·) prices.dedup).length :=
          Nat.div_lt_self hslen (by norm_num)
        have hmid2 : (List.insertionSort (· ≤ ·) prices.dedup).length / 2 - 1 <
            (List.insertionSort (· ≤ ·) prices.dedup).length :=
          lt_of_le_of_lt (Nat.sub_le _ _) hmid1
        have hle1 : (List.insertionSort (· ≤ ·) prices.dedup).getD 0 0 ≤
            (List.insertionSort (· ≤ ·) prices.dedup).getD
              ((List.insertionSort (· ≤ ·) prices.dedup).length / 2) 0 := by
          rw [getD_zero_eq_headD]
          exact sorted_headD_le_getD hsort hmid1
        have hle2 : (List.insertionSort (· ≤ ·) prices.dedup).getD 0 0 ≤
            (List.insertionSort (· ≤ ·) prices.dedup).getD
              ((List.insertionSort (· ≤ ·) prices.dedup).length / 2 - 1) 0 := by
          rw [getD_zero_eq_headD]
          exact sorted_headD_le_getD hsort hmid2
        have hmed : (List.insertionSort (· ≤ ·) prices.dedup).getD 0 0 ≤
            (if (List.insertionSort (· ≤ ·) prices.dedup).length % 2 = 1 then
              (List.insertionSort (· ≤ ·) prices.dedup).getD
                ((List.insertionSort (· ≤ ·) prices.dedup).length / 2) 0
            else qDivInt (qAdd
              ((List.insertionSort (· ≤ ·) prices.dedup).getD
                ((List.insertionSort (· ≤ ·) prices.dedup).length / 2 - 1) 0)
              ((List.insertionSort (· ≤ ·) prices.dedup).getD
                ((List.insertionSort (· ≤ ·) prices.dedup).length / 2) 0)) 2) := by
          by_cases hodd : (List.insertionSort (· ≤ ·) prices.dedup).length % 2 = 1
          · rw [if_pos hodd]
            exact hle1
          · rw [if_neg hodd, qHalf_eq]
            linarith
        injection hr with hr'
        rw [← hr']
        exact pyRound_mono hmed
      · rw [if_neg h0] at hr
        cases hr
  · intro body relay st d ts pl f m hsaved
    unfold relayHandler at hsaved
    by_cases h1 : pyStrip (pyLower (body.platform.getD "")) = "" ∨
        ¬ truthyOptQ body.floor ∨ ¬ truthyOptQ body.median
    · rw [if_pos h1] at hsaved
      exact absurd hsaved (by simp)
    · rw [if_neg h1] at hsaved
      by_cases h2 : ¬ (PRICE_MIN ≤ (body.floor).getD 0 ∧ (body.floor).getD 0 ≤ PRICE_MAX ∧
          PRICE_MIN ≤ (body.median).getD 0 ∧ (body.median).getD 0 ≤ PRICE_MAX)
      · rw [if_pos h2] at hsaved
        exact absurd hsaved (by simp)
      · rw [if_neg h2] at hsaved
        push_neg at h2
        dsimp only at hsaved
        injection hsaved with hpl hfv hmv
        rw [← hfv, ← hmv]
        exact ⟨h2.1, h2.2.1, h2.2.2.1, h2.2.2.2⟩

/-- Witness for the amended C8: a direct extraction keeps floor ≤ median,
and an accepted relay submission is within bounds. -/
theorem C8_floor_le_median_amended_witness :
    directResult [1000, 1000, 2000] = some ⟨1000, 1500, 2⟩ ∧
    ((⟨1000, 1500, 2⟩ : PlatformResult).floor ≤ (⟨1000, 1500, 2⟩ : PlatformResult).median) ∧
    (PRICE_MIN ≤ (2000 : ℚ) ∧ (2000 : ℚ) ≤ PRICE_MAX ∧
      PRICE_MIN ≤ (900 : ℚ) ∧ (900 : ℚ) ≤ PRICE_MAX) :=
  ⟨by decide,
   C8_floor_le_median_amended.1 [1000, 1000, 2000] ⟨1000, 1500, 2⟩ (by decide),
   C8_floor_le_median_amended.2 ⟨some "seatgeek", some 2000, some 900, some 5⟩ [] initState
     7 7 "seatgeek" 2000 900 (by decide)⟩

mutual

/-- The accumulator-threading `pluck` only ever appends: it returns its
accumulator followed by exactly the collected values. -/
theorem pluck_append : ∀ (j : Json) (found : List ℚ), pluck j found = found ++ collect j
  | Json.null, found => by simp [pluck, collect]
  | Json.bool b, found => by simp [pluck, collect]
  | Json.num q, found => by simp [pluck, collect]
  | Json.str s, found => by simp [pluck, collect]
  | Json.arr items, found => by
    simp only [pluck, collect]
    exact pluckArr_append items found
  | Json.obj kvs, found => by
    simp only [pluck, collect]
    exact pluckKvs_append kvs found

theorem pluckKvs_append : ∀ (kvs : List (String × Json)) (found : List ℚ),
    pluckKvs kvs found = found ++ collectKvs kvs
  | [], found => by simp [pluckKvs, collectKvs]
  | (k, v) :: rest, found => by
    simp only [pluckKvs, collectKvs]
    rw [pluckKvs_append rest, pluck_append v]
    by_cases hk : pyLower k ∈ PRICE_KEYS
    · rw [if_pos hk, if_pos hk]
      rcases hc : coerceNum v with _ | p
      · simp
      · dsimp only
        by_cases hb : PRICE_MIN ≤ p ∧ p ≤ PRICE_MAX
        · rw [if_pos hb, if_pos hb]
          simp
        · rw [if_neg hb, if_neg hb]
          simp
    · rw [if_neg hk, if_neg hk]
      simp

theorem pluckArr_append : ∀ (items : List Json) (found : List ℚ),
    pluckArr items found = found ++ collectArr items
  | [], found => by simp [pluckArr, collectArr]
  | item :: rest, found => by
    simp only [pluckArr, collectArr]
    rw [pluckArr_append rest, pluck_append item]
    simp

end

mutual

/-- Every value collected by the extractor lies within the price bounds. -/
theorem collect_bounds : ∀ (j : Json), ∀ x ∈ collect j, PRICE_MIN ≤ x ∧ x ≤ PRICE_MAX
  | Json.null => by simp [collect]
  | Json.bool b => by simp [collect]
  | Json.num q => by simp [collect]
  | Json.str s => by simp [collect]
  | Json.arr items => by
    simp only [collect]
    exact collectArr_bounds items
  | Json.obj kvs => by
    simp only [collect]
    exact collectKvs_bounds kvs

theorem collectKvs_bounds : ∀ (kvs : List (String × Json)),
    ∀ x ∈ collectKvs kvs, PRICE_MIN ≤ x ∧ x ≤ PRICE_MAX
  | [] => by simp [collectKvs]
  | (k, v) :: rest => by
    intro x hx
    simp only [collectKvs, List.mem_append] at hx
    rcases hx with (hx | hx) | hx
    · by_cases hk : pyLower k ∈ PRICE_KEYS
      · rw [if_pos hk] at hx
        rcases hc : coerceNum v with _ | p
        · rw [hc] at hx
          cases hx
        · rw [hc] at hx
          dsimp only at hx
          by_cases hb : PRICE_MIN ≤ p ∧ p ≤ PRICE_MAX
          · rw [if_pos hb] at hx
            rcases List.mem_singleton.mp hx with rfl
            exact hb
          · rw [if_neg hb] at hx
            cases hx
      · rw [if_neg hk] at hx
        cases hx
    · exact collect_bounds v x hx
    · exact collectKvs_bounds rest x hx

theorem collectArr_bounds : ∀ (items : List Json),
    ∀ x ∈ collectArr items, PRICE_MIN ≤ x ∧ x ≤ PRICE_MAX
  | [] => by simp [collectArr]
  | item :: rest => by
    intro x hx
    simp only [collectArr, List.mem_append] at hx
    rcases hx with hx | hx
    · exact collect_bounds item x hx
    · exact collectArr_bounds rest x hx

end

/-- Every value kept by the money-regex scanner lies within the price
bounds (for any fuel). -/
theorem scanPrices_bounds (fuel : ℕ) :
    ∀ (cs : List Char), ∀ x ∈ scanPrices fuel cs, PRICE_MIN ≤ x ∧ x ≤ PRICE_MAX := by
  induction fuel with
  | zero =>
    intro cs x hx
    simp [scanPrices] at hx
  | succ n ih =>
    intro cs x hx
    cases cs with
    | nil => simp [scanPrices] at hx
    | cons c rest =>
      rw [scanPrices] at hx
      split at hx
      · dsimp only at hx
        split at hx
        · exact ih rest x hx
        · split at hx
          · split at hx
            · rename_i hb
              rcases List.mem_cons.mp hx with rfl | hx'
              · exact hb
              · exact ih _ x hx'
            · exact ih _ x hx
          · exact ih _ x hx
      · exact ih rest x hx

/-- Claim C9: the extractor yields exactly `[1234]` on the spec's nested
sample input; `pluck` is its accumulator plus exactly the collected
in-bounds values under price keys; every structured or regex-extracted value
obeys the `[PRICE_MIN, PRICE_MAX]` filter; and the regex pass is used
exactly when the structured pass yields zero samples. -/
theorem C9_extractor :
    pluck (Json.obj [("listings", Json.arr
      [Json.obj [("price", Json.str "$1,234")],
       Json.obj [("cost", Json.num 5000000)]])]) [] = [1234] ∧
    (∀ (j : Json) (found : List ℚ), pluck j found = found ++ collect j) ∧
    (∀ (j : Json), ∀ x ∈ collect j, PRICE_MIN ≤ x ∧ x ≤ PRICE_MAX) ∧
    (∀ (text : String), ∀ x ∈ regex_p text, PRICE_MIN ≤ x ∧ x ≤ PRICE_MAX) ∧
    (∀ (blobs : List Json) (page : String),
      (blobs.foldl (fun acc b => pluck b acc) [] = [] →
        extractPrices blobs page = regex_p page) ∧
      (blobs.foldl (fun acc b => pluck b acc) [] ≠ [] →
        extractPrices blobs page = blobs.foldl (fun acc b => pluck b acc) [])) := by
  refine ⟨by decide, pluck_append, collect_bounds, ?_, ?_⟩
  · intro text x hx
    exact scanPrices_bounds text.data.length text.data x hx
  · intro blobs page
    constructor
    · intro h
      unfold extractPrices
      rw [if_pos h]
    · intro h
      unfold extractPrices
      rw [if_neg h]

/-- Witness for C9: the example tree's sole collected value is in bounds,
and a blob-free page falls back to the regex scan. -/
theorem C9_extractor_witness :
    (PRICE_MIN ≤ (1234 : ℚ) ∧ (1234 : ℚ) ≤ PRICE_MAX) ∧
    pluck (Json.obj [("price", Json.str "$1,234")]) [999] =
      [999] ++ collect (Json.obj [("price", Json.str "$1,234")]) ∧
    extractPrices [] "tickets from $950 tonight" = regex_p "tickets from $950 tonight" :=
  ⟨C9_extractor.2.2.1 (Json.obj [("price", Json.str "$1,234")]) 1234 (by decide),
   C9_extractor.2.1 (Json.obj [("price", Json.str "$1,234")]) [999],
   (C9_extractor.2.2.2.2 [] "tickets from $950 tonight").1 (by decide)⟩

end TicketDesk
